import Mathlib

/-
Verification development for the tablestore row-mapping layer (src/src/Table.js).

The JavaScript class Table is shallowly embedded as pure Lean functions.
JS objects (rows) are modelled as association lists from property names to
values, where property assignment (setProp) keeps the position of an
existing key and appends new keys, matching JS object semantics for
objects without duplicate keys.  The asynchronous backend client is
modelled by passing its responses explicitly: single-row operations
return the exact parameter object they would send to the backend (or the
validation error they reject with before any call), and the two scan
operations consume a script of backend responses, one per issued scan.
-/

namespace TS

/-- Primary-key column type markers.  The source only ever tests whether a
descriptor has the 64-bit integer type (item.type === Store.Long); the
remaining markers are carried opaquely. -/
inductive PKType where
  | long
  | str
  | binary
deriving DecidableEq, Repr

/-- Scalar values stored in rows, plus the two sentinel range-bound markers
Store.INF_MIN and Store.INF_MAX.  vNum models a JS number restricted to
integers (the only arithmetic the source performs on values is parseInt);
vLong models the backend 64-bit integer representation produced by
Store.Long.fromNumber. -/
inductive Value where
  | vStr : String → Value
  | vNum : Int → Value
  | vLong : Int → Value
  | vBool : Bool → Value
  | infMin : Value
  | infMax : Value
deriving DecidableEq, Repr

/-- A JS row object: property names mapped to scalar values, in insertion
order. -/
abbrev Row := List (String × Value)

/-- Attribute-column payload values.  A put item carries scalar column
values; an update item carries the single wrapped entry
{PUT: [column objects]} produced by parseRowToUpdateOfAttributeColumns,
whose value is a list of column objects rather than a scalar. -/
inductive AVal where
  | scalar : Value → AVal
  | colsList : List (String × Value) → AVal
deriving DecidableEq, Repr

/-- A reconstructed row, as produced by parseParamsToRow: property values
may be scalars or (for update items) the wrapped column list. -/
abbrev ReconRow := List (String × AVal)

/-- One primary-key descriptor {name, type}. -/
structure PKDesc where
  name : String
  type : PKType
deriving DecidableEq, Repr

/-- The per-table state the translation functions read: the table name and
the ordered primary-key schema. -/
structure TableCfg where
  tableName : String
  primaryKeys : List PKDesc
deriving DecidableEq, Repr

/-- JS property read obj[k] (first binding of k, JS objects never hold
duplicate keys). -/
def getProp (row : List (String × α)) (k : String) : Option α :=
  match row with
  | [] => none
  | (k1, v) :: rest => if k1 = k then some v else getProp rest k

/-- JS hasOwnProperty check. -/
def hasOwn (row : List (String × α)) (k : String) : Bool :=
  (getProp row k).isSome

/-- JS property assignment obj[k] = v: replace in place when the key
exists, append otherwise. -/
def setProp (row : List (String × α)) (k : String) (v : α) : List (String × α) :=
  match row with
  | [] => [(k, v)]
  | (k1, v1) :: rest => if k1 = k then (k, v) :: rest else (k1, v1) :: setProp rest k v

/-- First-some choice on options, used to state lookup lemmas about merged
objects. -/
def oor : Option α → Option α → Option α
  | some v, _ => some v
  | none, b => b

/-- Leading decimal digits of a character list. -/
def takeDigits : List Char → List Char
  | [] => []
  | c :: cs => if c.isDigit then c :: takeDigits cs else []

/-- Numeric value of a digit list. -/
def digitsToNat (cs : List Char) : Nat :=
  cs.foldl (fun a c => a * 10 + (c.toNat - 48)) 0

/-- JS parseInt on a string: optional sign followed by leading decimal
digits, trailing characters ignored; none models NaN. -/
def parseIntString (s : String) : Option Int :=
  let core : List Char → Int → Option Int := fun cs sign =>
    match takeDigits cs with
    | [] => none
    | ds => some (sign * (digitsToNat ds : Int))
  match s.data with
  | '-' :: cs => core cs (-1)
  | '+' :: cs => core cs 1
  | cs => core cs 1

/-- JS parseInt applied to a row value: numbers and 64-bit integers parse
to their own integer (parseInt stringifies its argument first), strings
parse by parseIntString, everything else is NaN (none). -/
def parseIntJS : Value → Option Int
  | .vStr s => parseIntString s
  | .vNum n => some n
  | .vLong n => some n
  | _ => none

/-- Clamp an integer into the signed 64-bit range, as the long library
backing Store.Long.fromNumber does for in-range and out-of-range
doubles. -/
def toInt64 (n : Int) : Int :=
  if n ≤ -(2 ^ 63) then -(2 ^ 63)
  else if n + 1 ≥ 2 ^ 63 then 2 ^ 63 - 1
  else n

/-- Store.Long.fromNumber composed with the NaN handling of the long
library used by the tablestore SDK: fromNumber(NaN) is the 64-bit zero,
any other number is clamped into the 64-bit range.  It never throws. -/
def longFromNumber : Option Int → Value
  | some n => .vLong (toInt64 n)
  | none => .vLong 0

/-- Existence-condition markers (Store.RowExistenceExpectation). -/
inductive RowExistenceExpectation where
  | IGNORE
  | EXPECT_EXIST
  | EXPECT_NOT_EXIST
deriving DecidableEq, Repr

/-- Embedding of Table.__parseRowToPrimaryKey: walk the primary-key
descriptors in schema order; a key present on the row is emitted with its
value, converted through Store.Long.fromNumber(parseInt(value)) when the
descriptor has the 64-bit integer type; an absent key is emitted with the
default value when one is supplied (defaultValue !== undefined) and
omitted otherwise.  The null guard obj = obj || {} is the Option.getD. -/
def parseRowToPrimaryKey (pks : List PKDesc) (obj : Option Row) (defaultValue : Option Value) :
    List (String × Value) :=
  let o := obj.getD []
  pks.flatMap (fun item =>
    match getProp o item.name with
    | some value =>
        [(item.name, if item.type = PKType.long then longFromNumber (parseIntJS value) else value)]
    | none =>
        match defaultValue with
        | some d => [(item.name, d)]
        | none => [])

/-- Embedding of Table.__parseRowToAttributeColumns: every row property
whose name is not a primary-key name becomes one column entry, in row
iteration order. -/
def parseRowToAttributeColumns (cfg : TableCfg) (obj : Row) : List (String × Value) :=
  let ignoreKeys := cfg.primaryKeys.map PKDesc.name
  obj.filter (fun p => !(ignoreKeys.contains p.1))

/-- Embedding of Table.__parseRowToUpdateOfAttributeColumns: the column
list wrapped as the single PUT-type update entry. -/
def parseRowToUpdateOfAttributeColumns (cfg : TableCfg) (obj : Row) : List (String × AVal) :=
  [("PUT", AVal.colsList (parseRowToAttributeColumns cfg obj))]

/-- The parameter object built for the single-row backend calls.  tableName
is an Option because the batch translator deletes it from batch items;
type is the tag the batch translator adds ("PUT", "UPDATE" or "DELETE");
returnContent records whether the builder attached the return-content
field. -/
structure RowParams where
  tableName : Option String
  type : Option String
  condition : RowExistenceExpectation
  primaryKey : List (String × Value)
  attributeColumns : Option (List (String × AVal))
  updateOfAttributeColumns : Option (List (String × AVal))
  returnContent : Bool
deriving DecidableEq, Repr

/-- Embedding of Table.__buildPutRowParams. -/
def buildPutRowParams (cfg : TableCfg) (row : Row) (condition : Option RowExistenceExpectation) :
    RowParams :=
  { tableName := some cfg.tableName
    type := none
    condition := condition.getD RowExistenceExpectation.IGNORE
    primaryKey := parseRowToPrimaryKey cfg.primaryKeys (some row) none
    attributeColumns :=
      some ((parseRowToAttributeColumns cfg row).map (fun p => (p.1, AVal.scalar p.2)))
    updateOfAttributeColumns := none
    returnContent := true }

/-- Embedding of Table.__buildInsertRowParams: a put with the
must-not-exist default condition. -/
def buildInsertRowParams (cfg : TableCfg) (row : Row) (condition : Option RowExistenceExpectation) :
    RowParams :=
  buildPutRowParams cfg row (some (condition.getD RowExistenceExpectation.EXPECT_NOT_EXIST))

/-- Embedding of Table.__buildDeleteRowParams. -/
def buildDeleteRowParams (cfg : TableCfg) (row : Row) (condition : Option RowExistenceExpectation) :
    RowParams :=
  { tableName := some cfg.tableName
    type := none
    condition := condition.getD RowExistenceExpectation.IGNORE
    primaryKey := parseRowToPrimaryKey cfg.primaryKeys (some row) none
    attributeColumns := none
    updateOfAttributeColumns := none
    returnContent := false }

/-- Embedding of Table.__buildUpdateRowParams: the wrapped update column
list is stored both as updateOfAttributeColumns and as attributeColumns,
exactly as the source does. -/
def buildUpdateRowParams (cfg : TableCfg) (row : Row) (condition : Option RowExistenceExpectation) :
    RowParams :=
  let attributeColumns := parseRowToUpdateOfAttributeColumns cfg row
  { tableName := some cfg.tableName
    type := none
    condition := condition.getD RowExistenceExpectation.EXPECT_EXIST
    primaryKey := parseRowToPrimaryKey cfg.primaryKeys (some row) none
    attributeColumns := some attributeColumns
    updateOfAttributeColumns := some attributeColumns
    returnContent := true }

/-- A backend response item: {primaryKey: [{name, value}], attributes:
[{columnName, columnValue}]}, both modelled as name-value pair lists. -/
structure RespRow where
  primaryKey : List (String × Value)
  attributes : List (String × Value)
deriving DecidableEq, Repr

/-- Embedding of Table.__parseDataToRow: merge the response primary-key
entries, then the attribute entries, into one flat row by property
assignment. -/
def parseDataToRow (data : RespRow) : Row :=
  let row := data.primaryKey.foldl (fun r p => setProp r p.1 p.2) ([] : Row)
  data.attributes.foldl (fun r p => setProp r p.1 p.2) row

/-- Embedding of Table.__parseParamsToRow: merge the parameter primary-key
entries, then (when present) the attribute-column entries, into one row
by property assignment.  Primary-key values are scalars; attribute-column
entries keep whatever payload the builder stored, which for update items
is the wrapped column list. -/
def parseParamsToRow (params : RowParams) : ReconRow :=
  let row := params.primaryKey.foldl (fun r p => setProp r p.1 (AVal.scalar p.2)) ([] : ReconRow)
  match params.attributeColumns with
  | some cols => cols.foldl (fun r p => setProp r p.1 p.2) row
  | none => row

/-- JS toLocaleUpperCase restricted to the ASCII operation-kind labels the
source compares against. -/
def jsToUpper (s : String) : String :=
  String.mk (s.data.map Char.toUpper)

/-- Case body of the batch expansion for a put entry: the put parameters,
tagged PUT, with tableName deleted. -/
def putBatchItem (cfg : TableCfg) (row : Row) : RowParams :=
  { buildPutRowParams cfg row none with tableName := none, type := some "PUT" }

/-- Case body of the batch expansion for an insert entry: the insert
parameters, tagged PUT (not INSERT), with tableName deleted. -/
def insertBatchItem (cfg : TableCfg) (row : Row) : RowParams :=
  { buildInsertRowParams cfg row none with tableName := none, type := some "PUT" }

/-- Case body of the batch expansion for an update entry. -/
def updateBatchItem (cfg : TableCfg) (row : Row) : RowParams :=
  { buildUpdateRowParams cfg row none with tableName := none, type := some "UPDATE" }

/-- Case body of the batch expansion for a delete entry. -/
def deleteBatchItem (cfg : TableCfg) (row : Row) : RowParams :=
  { buildDeleteRowParams cfg row none with tableName := none, type := some "DELETE" }

/-- The switch statement of Table.__parseObjectToBatchWriteRows: an
upper-cased operation label selects a builder, any other label matches no
case and contributes nothing. -/
def buildBatchItem (cfg : TableCfg) (op : String) (row : Row) : Option RowParams :=
  if op = "PUT" then some (putBatchItem cfg row)
  else if op = "INSERT" then some (insertBatchItem cfg row)
  else if op = "UPDATE" then some (updateBatchItem cfg row)
  else if op = "DELETE" then some (deleteBatchItem cfg row)
  else none

/-- Items contributed by one entry of the operation map: the rows of the
entry (a null value stands in for an empty array) run through the switch
in array order. -/
def entryItems (cfg : TableCfg) (e : String × Option (List Row)) : List RowParams :=
  (e.2.getD []).filterMap (buildBatchItem cfg (jsToUpper e.1))

/-- Embedding of Table.__parseObjectToBatchWriteRows: one flat item list,
in map-iteration order then array order. -/
def parseObjectToBatchWriteRows (cfg : TableCfg) (obj : List (String × Option (List Row))) :
    List RowParams :=
  obj.flatMap (entryItems cfg)

/-- The reconciled bucket object returned by batchWrite. -/
structure BatchObject where
  put : List ReconRow
  insert : List ReconRow
  update : List ReconRow
  delete : List ReconRow
deriving DecidableEq, Repr

/-- Embedding of Table.__parseBatchWriteRowsToObject: each item is
reconstructed by parseParamsToRow and pushed onto the bucket selected by
its type tag; an item with any other tag is dropped. -/
def parseBatchWriteRowsToObject (writeRows : List RowParams) : BatchObject :=
  writeRows.foldl (fun obj item =>
    let row := parseParamsToRow item
    if item.type = some "PUT" then { obj with put := obj.put ++ [row] }
    else if item.type = some "INSERT" then { obj with insert := obj.insert ++ [row] }
    else if item.type = some "UPDATE" then { obj with update := obj.update ++ [row] }
    else if item.type = some "DELETE" then { obj with delete := obj.delete ++ [row] }
    else obj)
    ⟨[], [], [], []⟩

/-- Positional success filter of batchWrite:
rows.filter((item, i) => (arr[i] || {}).isOk), where an index beyond the
result array reads undefined.isOk, which is falsy. -/
def filterByOk : List RowParams → List Bool → List RowParams
  | [], _ => []
  | _ :: _, [] => []
  | item :: items, b :: bs =>
      if b then item :: filterByOk items bs else filterByOk items bs

/-- Embedding of Table.batchWrite with the backend response supplied as the
positional isOk list: expand the operation map, keep the positionally
successful items, and reconcile them back into buckets. -/
def batchWrite (cfg : TableCfg) (batchOpData : List (String × Option (List Row)))
    (results : List Bool) : BatchObject :=
  let rows := parseObjectToBatchWriteRows cfg batchOpData
  parseBatchWriteRowsToObject (filterByOk rows results)

/-- Embedding of Table.put: a falsy row rejects with the invalid-argument
message before any backend call; otherwise the ok result carries the
exact parameter object handed to store.putRow. -/
def put (cfg : TableCfg) (row : Option Row) : Except String RowParams :=
  match row with
  | none => .error "参数无效"
  | some r => .ok (buildPutRowParams cfg r none)

/-- Embedding of Table.insert. -/
def insert (cfg : TableCfg) (row : Option Row) : Except String RowParams :=
  match row with
  | none => .error "参数无效"
  | some r => .ok (buildInsertRowParams cfg r none)

/-- Embedding of Table.update. -/
def update (cfg : TableCfg) (row : Option Row) : Except String RowParams :=
  match row with
  | none => .error "参数无效"
  | some r => .ok (buildUpdateRowParams cfg r none)

/-- Embedding of Table.delete. -/
def delete (cfg : TableCfg) (row : Option Row) : Except String RowParams :=
  match row with
  | none => .error "参数无效"
  | some r => .ok (buildDeleteRowParams cfg r none)

/-- Column-projection options of the get and batchGet calls. -/
structure GetOptions where
  startColumn : Option String := none
  endColumn : Option String := none
deriving DecidableEq, Repr

/-- The parameter object of store.getRow. -/
structure GetRowParams where
  tableName : String
  primaryKey : List (String × Value)
  startColumn : Option String
  endColumn : Option String
deriving DecidableEq, Repr

/-- Embedding of Table.get up to the backend call: a falsy row rejects
with the invalid-argument message; otherwise the ok result carries the
getRow parameters (primary key built with the empty-string default). -/
def get (cfg : TableCfg) (row : Option Row) (options : Option GetOptions) :
    Except String GetRowParams :=
  match row with
  | none => .error "参数无效"
  | some r =>
      let o := options.getD {}
      .ok { tableName := cfg.tableName
            primaryKey := parseRowToPrimaryKey cfg.primaryKeys (some r) (some (Value.vStr ""))
            startColumn := o.startColumn
            endColumn := o.endColumn }

/-- Embedding of Table.batchPut: a falsy or empty rows array rejects;
otherwise the ok result carries the wire item list batchWrite would
submit for {put: rows}. -/
def batchPut (cfg : TableCfg) (rows : Option (List Row)) : Except String (List RowParams) :=
  match rows with
  | none => .error "参数无效"
  | some rs =>
      if rs.length = 0 then .error "参数无效"
      else .ok (parseObjectToBatchWriteRows cfg [("put", some rs)])

/-- Embedding of Table.batchInsert. -/
def batchInsert (cfg : TableCfg) (rows : Option (List Row)) : Except String (List RowParams) :=
  match rows with
  | none => .error "参数无效"
  | some rs =>
      if rs.length = 0 then .error "参数无效"
      else .ok (parseObjectToBatchWriteRows cfg [("insert", some rs)])

/-- Embedding of Table.batchUpdate. -/
def batchUpdate (cfg : TableCfg) (rows : Option (List Row)) : Except String (List RowParams) :=
  match rows with
  | none => .error "参数无效"
  | some rs =>
      if rs.length = 0 then .error "参数无效"
      else .ok (parseObjectToBatchWriteRows cfg [("update", some rs)])

/-- Embedding of Table.batchDelete. -/
def batchDelete (cfg : TableCfg) (rows : Option (List Row)) : Except String (List RowParams) :=
  match rows with
  | none => .error "参数无效"
  | some rs =>
      if rs.length = 0 then .error "参数无效"
      else .ok (parseObjectToBatchWriteRows cfg [("delete", some rs)])

/-- Embedding of Table.validateRow: false for a falsy row, otherwise the
forEach loop that clears the result flag at every primary-key name the
row lacks. -/
def validateRow (cfg : TableCfg) (row : Option Row) : Bool :=
  match row with
  | none => false
  | some r =>
      cfg.primaryKeys.foldl
        (fun result item => if !(hasOwn r item.name) then false else result) true

/-- The parameter object of a range scan (store.getRange); direction is
always FORWARD in the source and is left implicit. -/
structure ScanParams where
  tableName : String
  inclusiveStartPrimaryKey : List (String × Value)
  exclusiveEndPrimaryKey : List (String × Value)
  startColumn : Option String
  endColumn : Option String
  limit : Int
deriving DecidableEq, Repr

/-- One backend response to a range scan: the returned rows and the
optional continuation key next_start_primary_key, as {name, value}
entries. -/
structure ScanResponse where
  rows : List RespRow
  next : Option (List (String × Value))
deriving DecidableEq, Repr

/-- The scan parameters Table.getRange builds on each call: sentinel
defaults for absent key components and the fixed page size 5. -/
def getRangeParams (cfg : TableCfg) (startRow endRow : Row) (options : GetOptions) : ScanParams :=
  { tableName := cfg.tableName
    inclusiveStartPrimaryKey := parseRowToPrimaryKey cfg.primaryKeys (some startRow) (some Value.infMin)
    exclusiveEndPrimaryKey := parseRowToPrimaryKey cfg.primaryKeys (some endRow) (some Value.infMax)
    startColumn := options.startColumn
    endColumn := options.endColumn
    limit := 5 }

/-- Embedding of Table.getRange with the backend responses supplied as a
script consumed one response per issued scan: append the returned rows to
the accumulator; on a continuation key, write its key fields into the
start row and recurse; otherwise map the accumulated items through
parseDataToRow.  none means the script ran out while a scan was still
being issued. -/
def getRange (cfg : TableCfg) (startRow endRow : Row) (acc : List RespRow) :
    List ScanResponse → Option (List Row)
  | [] => none
  | data :: rest =>
      let acc2 := acc ++ data.rows
      match data.next with
      | some npk =>
          getRange cfg (npk.foldl (fun r p => setProp r p.1 p.2) startRow) endRow acc2 rest
      | none => some (acc2.map parseDataToRow)

/-- The option object of Table.select after its Object.assign defaulting;
whereRow is the where field of the source (where is reserved in Lean). -/
structure SelectOptions where
  whereRow : Row := []
  limit : Int := 10
  page : Int := 1
  startColumn : Option String := none
  endColumn : Option String := none
deriving DecidableEq, Repr

/-- The parameter object of the first scan Table.select issues: on the
fast path the caller projection and limit, otherwise the degenerate
skip-scan projection and the offset limit. -/
def selectScanParams (cfg : TableCfg) (options : SelectOptions) : ScanParams :=
  let page := if options.page ≤ 0 then 1 else options.page
  let isFirst : Bool := page == 1
  let offset := (page - 1) * options.limit
  { tableName := cfg.tableName
    inclusiveStartPrimaryKey :=
      parseRowToPrimaryKey cfg.primaryKeys (some options.whereRow) (some Value.infMin)
    exclusiveEndPrimaryKey := parseRowToPrimaryKey cfg.primaryKeys (some []) (some Value.infMax)
    startColumn := if isFirst then options.startColumn else some "_"
    endColumn := if isFirst then options.endColumn else some "__"
    limit := if isFirst then options.limit else offset }

/-- The parameter object of the second scan Table.select issues: the first
parameters with the caller projection and limit restored and the start
key replaced by the continuation key. -/
def selectSecondParams (cfg : TableCfg) (options : SelectOptions)
    (npk : List (String × Value)) : ScanParams :=
  { selectScanParams cfg options with
    startColumn := options.startColumn
    endColumn := options.endColumn
    limit := options.limit
    inclusiveStartPrimaryKey := npk }

/-- Embedding of Table.select with the backend responses supplied as a
script consumed one response per issued scan.  The result carries the
parameter objects of the scans actually issued together with the returned
rows after parseDataToRow; none means the script ran out while a scan was
still being issued. -/
def select (cfg : TableCfg) (options : SelectOptions) (script : List ScanResponse) :
    Option (List ScanParams × List Row) :=
  let page := if options.page ≤ 0 then 1 else options.page
  let isFirst : Bool := page == 1
  let params := selectScanParams cfg options
  match script with
  | [] => none
  | data :: rest =>
      if isFirst then
        some ([params], data.rows.map parseDataToRow)
      else
        match data.next with
        | some npk =>
            match rest with
            | [] => none
            | data2 :: _ =>
                some ([params, selectSecondParams cfg options npk],
                  data2.rows.map parseDataToRow)
        | none => some ([params], [])

lemma getProp_append (a b : List (String × α)) (k : String) :
    getProp (a ++ b) k = oor (getProp a k) (getProp b k) := by
  induction a with
  | nil => simp [getProp, oor]
  | cons p rest ih =>
      obtain ⟨k1, v⟩ := p
      by_cases h : k1 = k
      · simp [getProp, h, oor]
      · simp [getProp, h, ih]

lemma getProp_eq_none_of_not_mem {l : List (String × α)} {k : String}
    (h : k ∉ l.map Prod.fst) : getProp l k = none := by
  induction l with
  | nil => rfl
  | cons p rest ih =>
      obtain ⟨k1, v⟩ := p
      simp only [List.map_cons, List.mem_cons, not_or] at h
      have hne : k1 ≠ k := fun hh => h.1 hh.symm
      simp [getProp, hne, ih h.2]

lemma setProp_getProp (r : List (String × α)) (kw : String) (v : α) (k : String) :
    getProp (setProp r kw v) k = if kw = k then some v else getProp r k := by
  induction r with
  | nil => by_cases h : kw = k <;> simp [setProp, getProp, h]
  | cons p rest ih =>
      obtain ⟨k1, v1⟩ := p
      by_cases h1 : k1 = kw
      · subst h1
        by_cases h2 : k1 = k <;> simp [setProp, getProp, h2]
      · by_cases h2 : k1 = k
        · subst h2
          have hne : kw ≠ k1 := fun hh => h1 hh.symm
          simp [setProp, getProp, h1, hne]
        · simp [setProp, getProp, h1, h2, ih]

lemma foldl_setProp_getProp (l : List (String × α)) (acc : List (String × α)) (k : String)
    (hnd : (l.map Prod.fst).Nodup) :
    getProp (l.foldl (fun r p => setProp r p.1 p.2) acc) k
      = oor (getProp l k) (getProp acc k) := by
  induction l generalizing acc with
  | nil => simp [getProp, oor]
  | cons p rest ih =>
      obtain ⟨k1, v1⟩ := p
      simp only [List.map_cons, List.nodup_cons] at hnd
      obtain ⟨hk1, hrest⟩ := hnd
      rw [List.foldl_cons, ih _ hrest]
      by_cases h : k1 = k
      · subst h
        rw [getProp_eq_none_of_not_mem hk1, setProp_getProp]
        simp [getProp, oor]
      · rw [setProp_getProp]
        simp [getProp, h]

lemma getProp_map_snd (l : List (String × α)) (g : α → β) (k : String) :
    getProp (l.map (fun p => (p.1, g p.2))) k = (getProp l k).map g := by
  induction l with
  | nil => simp [getProp]
  | cons p rest ih =>
      obtain ⟨k1, v1⟩ := p
      by_cases h : k1 = k <;> simp [getProp, h, ih]

lemma pk_keys_sublist (pks : List PKDesc) (obj : Option Row) (dv : Option Value) :
    ((parseRowToPrimaryKey pks obj dv).map Prod.fst).Sublist (pks.map PKDesc.name) := by
  induction pks with
  | nil => simp [parseRowToPrimaryKey]
  | cons d rest ih =>
      simp only [parseRowToPrimaryKey, List.flatMap_cons, List.map_append, List.map_cons]
      simp only [parseRowToPrimaryKey] at ih
      cases hg : getProp (obj.getD []) d.name with
      | some v => exact List.Sublist.cons₂ d.name ih
      | none =>
          cases dv with
          | some f => exact List.Sublist.cons₂ d.name ih
          | none => exact List.Sublist.cons d.name ih

lemma pk_getProp_none (pks : List PKDesc) (obj : Option Row) (dv : Option Value) {k : String}
    (hk : k ∉ pks.map PKDesc.name) :
    getProp (parseRowToPrimaryKey pks obj dv) k = none := by
  refine getProp_eq_none_of_not_mem (fun hmem => hk ?_)
  exact (pk_keys_sublist pks obj dv).subset hmem

lemma pk_getProp (pks : List PKDesc) (row : Row) (dv : Option Value) (d : PKDesc)
    (hnd : (pks.map PKDesc.name).Nodup) (hd : d ∈ pks) :
    getProp (parseRowToPrimaryKey pks (some row) dv) d.name
      = match getProp row d.name with
        | some v =>
            some (if d.type = PKType.long then longFromNumber (parseIntJS v) else v)
        | none => dv := by
  induction pks with
  | nil => cases hd
  | cons d0 rest ih =>
      simp only [List.map_cons, List.nodup_cons] at hnd
      obtain ⟨h0, hrest⟩ := hnd
      have hsplit : parseRowToPrimaryKey (d0 :: rest) (some row) dv
          = parseRowToPrimaryKey [d0] (some row) dv ++ parseRowToPrimaryKey rest (some row) dv := by
        simp [parseRowToPrimaryKey]
      rw [hsplit, getProp_append]
      rcases List.mem_cons.mp hd with heq | hmem
      · subst heq
        cases hg : getProp row d.name with
        | some v =>
            simp [parseRowToPrimaryKey, hg, getProp, oor]
        | none =>
            cases dv with
            | some f => simp [parseRowToPrimaryKey, hg, getProp, oor]
            | none =>
                have hnone : getProp (parseRowToPrimaryKey rest (some row) none) d.name = none :=
                  pk_getProp_none rest (some row) none h0
                have hhead : parseRowToPrimaryKey [d] (some row) none = [] := by
                  simp [parseRowToPrimaryKey, hg]
                rw [hhead, hnone]
                simp [getProp, oor]
      · have hne : d0.name ≠ d.name := by
          intro hh
          exact h0 (hh ▸ List.mem_map_of_mem PKDesc.name hmem)
        have hhead : getProp (parseRowToPrimaryKey [d0] (some row) dv) d.name = none := by
          refine getProp_eq_none_of_not_mem (fun hmem2 => ?_)
          have := (pk_keys_sublist [d0] (some row) dv).subset hmem2
          simp at this
          exact hne this.symm
        rw [hhead, ih hrest hmem]
        cases hg : getProp row d.name <;> simp [oor]

lemma getProp_filter_contains (names : List String) (l : List (String × α)) (k : String) :
    getProp (l.filter (fun p => !(names.contains p.1))) k
      = if k ∈ names then none else getProp l k := by
  induction l with
  | nil => simp [getProp]
  | cons p rest ih =>
      obtain ⟨k1, v1⟩ := p
      by_cases hc : k1 ∈ names
      · by_cases hk : k1 = k
        · subst hk
          simp only [List.filter_cons]
          simp [hc]
          simpa [hc] using ih
        · simp only [List.filter_cons]
          simp [hc, getProp, hk]
          simpa using ih
      · by_cases hk : k1 = k
        · subst hk
          simp [List.filter_cons, hc, getProp, ih]
        · simp only [List.filter_cons]
          simp [hc, getProp, hk]
          simpa using ih

lemma oor_none (x : Option α) : oor x none = x := by
  cases x <;> rfl

lemma foldl_setProp_map_getProp (g : α → β) (l : List (String × α)) (acc : List (String × β))
    (k : String) (hnd : (l.map Prod.fst).Nodup) :
    getProp (l.foldl (fun r p => setProp r p.1 (g p.2)) acc) k
      = oor ((getProp l k).map g) (getProp acc k) := by
  induction l generalizing acc with
  | nil => simp [getProp, oor]
  | cons p rest ih =>
      obtain ⟨k1, v1⟩ := p
      simp only [List.map_cons, List.nodup_cons] at hnd
      obtain ⟨hk1, hrest⟩ := hnd
      rw [List.foldl_cons, ih _ hrest]
      by_cases h : k1 = k
      · subst h
        rw [getProp_eq_none_of_not_mem hk1, setProp_getProp]
        simp [getProp, oor]
      · rw [setProp_getProp]
        simp [getProp, h]

lemma pk_omits (pks : List PKDesc) (row : Row) {k : String}
    (hmiss : getProp row k = none) :
    k ∉ (parseRowToPrimaryKey pks (some row) none).map Prod.fst := by
  intro hmem
  simp only [parseRowToPrimaryKey, Option.getD_some] at hmem
  obtain ⟨p, hp, hfst⟩ := List.mem_map.mp hmem
  obtain ⟨d, hd, hpd⟩ := List.mem_flatMap.mp hp
  cases hg : getProp row d.name with
  | some v =>
      simp only [hg, List.mem_singleton] at hpd
      subst hpd
      simp only at hfst
      rw [hfst] at hg
      rw [hmiss] at hg
      cases hg
  | none => simp [hg] at hpd

/-- C8: the row-to-primary-key conversion walks the descriptors in schema
order (its key names form a sublist of the schema names), omits every
component whose key the row lacks when no fallback is given, and emits
the fallback value verbatim for such a component when one is given. -/
theorem rowToPrimaryKey_fallback (pks : List PKDesc) (obj : Row) (dv : Option Value) :
    ((parseRowToPrimaryKey pks (some obj) dv).map Prod.fst).Sublist (pks.map PKDesc.name)
    ∧ (∀ d ∈ pks, getProp obj d.name = none →
        d.name ∉ (parseRowToPrimaryKey pks (some obj) none).map Prod.fst)
    ∧ (∀ d ∈ pks, ∀ f : Value, getProp obj d.name = none →
        (d.name, f) ∈ parseRowToPrimaryKey pks (some obj) (some f)) := by
  refine ⟨pk_keys_sublist pks (some obj) dv, ?_, ?_⟩
  · intro d _ hmiss
    exact pk_omits pks obj hmiss
  · intro d hd f hmiss
    simp only [parseRowToPrimaryKey, Option.getD_some]
    refine List.mem_flatMap.mpr ⟨d, hd, ?_⟩
    simp [hmiss]

/-- Witness for C8 at a two-column schema and a row lacking the second
key: the fallback sentinel is emitted verbatim for the absent key. -/
theorem rowToPrimaryKey_fallback_witness :
    ("b", Value.infMin) ∈ parseRowToPrimaryKey [⟨"a", PKType.str⟩, ⟨"b", PKType.str⟩]
      (some [("a", Value.vStr "1")]) (some Value.infMin) :=
  (rowToPrimaryKey_fallback [⟨"a", PKType.str⟩, ⟨"b", PKType.str⟩] [("a", Value.vStr "1")]
      (some Value.infMin)).2.2 ⟨"b", PKType.str⟩ (by decide) Value.infMin (by decide)

/-- C5 (amended): a primary-key component with the 64-bit integer type is
emitted as Store.Long.fromNumber(parseInt(value)); a non-numeric value is
not rejected — parseInt yields NaN, fromNumber maps NaN to the 64-bit
zero, and that zero component is emitted. -/
theorem longKey_encoding_amended (pks : List PKDesc) (row : Row) (dv : Option Value)
    (d : PKDesc) (v : Value) (hnd : (pks.map PKDesc.name).Nodup) (hd : d ∈ pks)
    (ht : d.type = PKType.long) (hv : getProp row d.name = some v) :
    getProp (parseRowToPrimaryKey pks (some row) dv) d.name
      = some (longFromNumber (parseIntJS v))
    ∧ (parseIntJS v = none →
        getProp (parseRowToPrimaryKey pks (some row) dv) d.name = some (Value.vLong 0)) := by
  have h := pk_getProp pks row dv d hnd hd
  rw [hv] at h
  simp only [ht, if_true] at h
  refine ⟨h, fun hnan => ?_⟩
  rw [h, hnan]
  rfl

/-- Witness for C5 at a one-column integer schema and the non-numeric key
value "abc": the emitted component is the 64-bit zero, not a failure. -/
theorem longKey_encoding_amended_witness :
    getProp (parseRowToPrimaryKey [⟨"id", PKType.long⟩]
        (some [("id", Value.vStr "abc")]) none) "id" = some (Value.vLong 0) :=
  (longKey_encoding_amended [⟨"id", PKType.long⟩] [("id", Value.vStr "abc")] none
      ⟨"id", PKType.long⟩ (Value.vStr "abc") (by decide) (by decide) (by decide)
      (by decide)).2 (by decide)

/-- Counterexample to C5 as stated: with an integer-typed key and the
non-numeric value "abc", the conversion does not fail — it emits the
64-bit zero for the component. -/
theorem longKey_nonNumeric_counterexample :
    parseRowToPrimaryKey [⟨"id", PKType.long⟩] (some [("id", Value.vStr "abc")]) none
      = [("id", Value.vLong 0)] := by
  decide

/-- C4 (amended): reconstructing the put parameters of a row yields the
original mapping with every integer-typed key value replaced by its
64-bit conversion and every other field unchanged; when the integer-typed
key values are already fixed points of that conversion (in particular,
when they are in-range 64-bit integers), the round trip is exact. -/
theorem putRoundTrip_amended (cfg : TableCfg) (row : Row)
    (hnd : (cfg.primaryKeys.map PKDesc.name).Nodup)
    (hrd : (row.map Prod.fst).Nodup)
    (hall : ∀ d ∈ cfg.primaryKeys, (getProp row d.name).isSome = true) :
    (∀ k, getProp (parseParamsToRow (buildPutRowParams cfg row none)) k
        = match cfg.primaryKeys.find? (fun d => d.name == k) with
          | some d =>
              (getProp row k).map (fun v =>
                AVal.scalar (if d.type = PKType.long then longFromNumber (parseIntJS v) else v))
          | none => (getProp row k).map AVal.scalar)
    ∧ ((∀ d ∈ cfg.primaryKeys, d.type = PKType.long →
          (getProp row d.name).map (fun v => longFromNumber (parseIntJS v))
            = getProp row d.name) →
        ∀ k, getProp (parseParamsToRow (buildPutRowParams cfg row none)) k
          = (getProp row k).map AVal.scalar) := by
  clear hall
  have hattr : ∀ k, getProp (parseRowToAttributeColumns cfg row) k
      = if k ∈ cfg.primaryKeys.map PKDesc.name then none else getProp row k := by
    intro k
    simp only [parseRowToAttributeColumns]
    exact getProp_filter_contains (cfg.primaryKeys.map PKDesc.name) row k
  have hattrnd : ((parseRowToAttributeColumns cfg row).map Prod.fst).Nodup := by
    have hsub : ((parseRowToAttributeColumns cfg row).map Prod.fst).Sublist
        (row.map Prod.fst) := by
      simp only [parseRowToAttributeColumns]
      exact (List.filter_sublist row).map Prod.fst
    exact List.Nodup.sublist hsub hrd
  have hpknd : ((parseRowToPrimaryKey cfg.primaryKeys (some row) none).map Prod.fst).Nodup :=
    List.Nodup.sublist (pk_keys_sublist cfg.primaryKeys (some row) none) hnd
  have hwrapkeys : (((parseRowToAttributeColumns cfg row).map
      (fun p => (p.1, AVal.scalar p.2))).map Prod.fst)
        = (parseRowToAttributeColumns cfg row).map Prod.fst := by
    simp [List.map_map, Function.comp_def]
  have hmain : ∀ k, getProp (parseParamsToRow (buildPutRowParams cfg row none)) k
      = match cfg.primaryKeys.find? (fun d => d.name == k) with
        | some d =>
            (getProp row k).map (fun v =>
              AVal.scalar (if d.type = PKType.long then longFromNumber (parseIntJS v) else v))
        | none => (getProp row k).map AVal.scalar := by
    intro k
    have hstep : getProp (parseParamsToRow (buildPutRowParams cfg row none)) k
        = oor ((getProp (parseRowToAttributeColumns cfg row) k).map AVal.scalar)
            ((getProp (parseRowToPrimaryKey cfg.primaryKeys (some row) none) k).map
              AVal.scalar) := by
      simp only [parseParamsToRow, buildPutRowParams]
      rw [foldl_setProp_getProp _ _ k (hwrapkeys ▸ hattrnd),
        foldl_setProp_map_getProp AVal.scalar _ _ k hpknd,
        getProp_map_snd, show getProp ([] : ReconRow) k = none from rfl, oor_none]
    rw [hstep]
    cases hfind : cfg.primaryKeys.find? (fun d => d.name == k) with
    | some d =>
        have hdmem : d ∈ cfg.primaryKeys := List.mem_of_find?_eq_some hfind
        have hdname : d.name = k := by
          have := List.find?_some hfind
          exact eq_of_beq this
        have hknames : k ∈ cfg.primaryKeys.map PKDesc.name :=
          hdname ▸ List.mem_map_of_mem PKDesc.name hdmem
        rw [hattr k, if_pos hknames]
        subst hdname
        rw [pk_getProp cfg.primaryKeys row none d hnd hdmem]
        cases hg : getProp row d.name <;> simp [oor, hg]
    | none =>
        have hknames : k ∉ cfg.primaryKeys.map PKDesc.name := by
          intro hmem
          obtain ⟨d, hd, hdk⟩ := List.mem_map.mp hmem
          have := List.find?_eq_none.mp hfind d hd
          exact this (by simp [hdk])
        rw [hattr k, if_neg hknames, pk_getProp_none cfg.primaryKeys (some row) none hknames]
        cases hg : getProp row k <;> simp [oor, hg]
  refine ⟨hmain, fun hfix k => ?_⟩
  rw [hmain k]
  cases hfind : cfg.primaryKeys.find? (fun d => d.name == k) with
  | some d =>
      have hdmem : d ∈ cfg.primaryKeys := List.mem_of_find?_eq_some hfind
      have hb := List.find?_some hfind
      have hdname : d.name = k := eq_of_beq hb
      by_cases ht : d.type = PKType.long
      · have hfixed := hfix d hdmem ht
        rw [hdname] at hfixed
        simp only [ht, if_true]
        calc (getProp row k).map (fun v => AVal.scalar (longFromNumber (parseIntJS v)))
            = ((getProp row k).map (fun v => longFromNumber (parseIntJS v))).map AVal.scalar := by
              cases getProp row k <;> rfl
          _ = (getProp row k).map AVal.scalar := by rw [hfixed]
      · simp only [ht, if_false]
  | none => rfl

/-- Witness for C4 at a schema with an integer key holding an in-range
64-bit value: the reconstruction at the key column equals the original
value. -/
theorem putRoundTrip_amended_witness :
    getProp (parseParamsToRow (buildPutRowParams
        ⟨"t", [⟨"id", PKType.long⟩, ⟨"name", PKType.str⟩]⟩
        [("id", Value.vLong 7), ("name", Value.vStr "n"), ("age", Value.vNum 3)] none)) "id"
      = (getProp [("id", Value.vLong 7), ("name", Value.vStr "n"), ("age", Value.vNum 3)]
          "id").map AVal.scalar :=
  (putRoundTrip_amended ⟨"t", [⟨"id", PKType.long⟩, ⟨"name", PKType.str⟩]⟩
      [("id", Value.vLong 7), ("name", Value.vStr "n"), ("age", Value.vNum 3)]
      (by decide) (by decide) (by decide)).2 (by decide) "id"

/-- Counterexample to C4 as stated: with an integer-typed key holding the
plain number 42, the reconstruction holds the 64-bit wrapped value, not
the original number, so the original mapping is not reconstructed
exactly. -/
theorem putRoundTrip_counterexample :
    getProp (parseParamsToRow (buildPutRowParams ⟨"t", [⟨"id", PKType.long⟩]⟩
        [("id", Value.vNum 42)] none)) "id" = some (AVal.scalar (Value.vLong 42))
    ∧ ¬ (getProp (parseParamsToRow (buildPutRowParams ⟨"t", [⟨"id", PKType.long⟩]⟩
        [("id", Value.vNum 42)] none)) "id"
          = (getProp [("id", Value.vNum 42)] "id").map AVal.scalar) := by
  constructor <;> decide

/-- C6 (amended): a write on a row lacking a primary-key component is not
rejected — all four single-row writes still hand the backend their
parameter object, whose primary key simply omits the missing
component. -/
theorem missingKey_noValidation_amended (cfg : TableCfg) (row : Row) (d : PKDesc)
    (hd : d ∈ cfg.primaryKeys) (hmiss : getProp row d.name = none) :
    put cfg (some row) = Except.ok (buildPutRowParams cfg row none)
    ∧ insert cfg (some row) = Except.ok (buildInsertRowParams cfg row none)
    ∧ update cfg (some row) = Except.ok (buildUpdateRowParams cfg row none)
    ∧ delete cfg (some row) = Except.ok (buildDeleteRowParams cfg row none)
    ∧ d.name ∉ (buildPutRowParams cfg row none).primaryKey.map Prod.fst
    ∧ d.name ∉ (buildDeleteRowParams cfg row none).primaryKey.map Prod.fst := by
  refine ⟨rfl, rfl, rfl, rfl, ?_, ?_⟩ <;>
    exact pk_omits cfg.primaryKeys row hmiss

/-- Witness for C6 at a one-column schema and a row lacking the key: the
delete call is issued with its (partial-key) parameters. -/
theorem missingKey_noValidation_amended_witness :
    delete ⟨"t", [⟨"id", PKType.str⟩]⟩ (some [("x", Value.vNum 1)])
      = Except.ok (buildDeleteRowParams ⟨"t", [⟨"id", PKType.str⟩]⟩
          [("x", Value.vNum 1)] none) :=
  (missingKey_noValidation_amended ⟨"t", [⟨"id", PKType.str⟩]⟩ [("x", Value.vNum 1)]
      ⟨"id", PKType.str⟩ (by decide) (by decide)).2.2.2.1

/-- Counterexample to C6 as stated: a put on a row lacking the only
primary-key component does not fail fast with a validation error — the
backend call is issued, with an empty primary key. -/
theorem missingKey_failFast_counterexample :
    put ⟨"t", [⟨"id", PKType.str⟩]⟩ (some [("x", Value.vNum 1)])
      = Except.ok (buildPutRowParams ⟨"t", [⟨"id", PKType.str⟩]⟩ [("x", Value.vNum 1)] none)
    ∧ (buildPutRowParams ⟨"t", [⟨"id", PKType.str⟩]⟩ [("x", Value.vNum 1)] none).primaryKey
      = [] :=
  ⟨rfl, by decide⟩

/-- C7: every single-row operation rejects a falsy row argument with the
invalid-argument error and never reaches the backend, and every batch
operation rejects a falsy or empty rows array the same way. -/
theorem falsyArgs_rejected (cfg : TableCfg) :
    put cfg none = Except.error "参数无效"
    ∧ insert cfg none = Except.error "参数无效"
    ∧ update cfg none = Except.error "参数无效"
    ∧ delete cfg none = Except.error "参数无效"
    ∧ (∀ options, get cfg none options = Except.error "参数无效")
    ∧ batchPut cfg none = Except.error "参数无效"
    ∧ batchPut cfg (some []) = Except.error "参数无效"
    ∧ batchInsert cfg none = Except.error "参数无效"
    ∧ batchInsert cfg (some []) = Except.error "参数无效"
    ∧ batchUpdate cfg none = Except.error "参数无效"
    ∧ batchUpdate cfg (some []) = Except.error "参数无效"
    ∧ batchDelete cfg none = Except.error "参数无效"
    ∧ batchDelete cfg (some []) = Except.error "参数无效" :=
  ⟨rfl, rfl, rfl, rfl, fun _ => rfl, rfl, rfl, rfl, rfl, rfl, rfl, rfl, rfl⟩

lemma foldl_validate (l : List PKDesc) (r : Row) (b : Bool) :
    l.foldl (fun result item => if !(hasOwn r item.name) then false else result) b
      = (b && l.all (fun item => hasOwn r item.name)) := by
  induction l generalizing b with
  | nil => simp
  | cons d rest ih =>
      rw [List.foldl_cons, ih, List.all_cons]
      cases hb : hasOwn r d.name <;> simp [hb]

/-- C9: validateRow is false on a falsy row; on a truthy row it is true
exactly when the row owns a property for every primary-key name, and it
depends on nothing but the presence of those properties. -/
theorem validateRow_characterization (cfg : TableCfg) :
    validateRow cfg none = false
    ∧ (∀ r : Row, validateRow cfg (some r) = true
        ↔ ∀ d ∈ cfg.primaryKeys, hasOwn r d.name = true)
    ∧ (∀ r r' : Row, (∀ d ∈ cfg.primaryKeys, hasOwn r d.name = hasOwn r' d.name) →
        validateRow cfg (some r) = validateRow cfg (some r')) := by
  refine ⟨rfl, ?_, ?_⟩
  · intro r
    simp only [validateRow, foldl_validate, Bool.true_and, List.all_eq_true]
  · intro r r' hsame
    simp only [validateRow, foldl_validate, Bool.true_and]
    have hall : ∀ (l : List PKDesc), (∀ d ∈ l, hasOwn r d.name = hasOwn r' d.name) →
        l.all (fun d => hasOwn r d.name) = l.all (fun d => hasOwn r' d.name) := by
      intro l hl
      induction l with
      | nil => rfl
      | cons d rest ih =>
          simp only [List.all_cons]
          rw [hl d (List.mem_cons_self d rest),
            ih (fun x hx => hl x (List.mem_cons_of_mem d hx))]
    exact hall cfg.primaryKeys hsame

/-- Witness for C9: two rows agreeing on the presence of the single key
name validate identically, although their attribute columns differ. -/
theorem validateRow_characterization_witness :
    validateRow ⟨"t", [⟨"id", PKType.str⟩]⟩
        (some [("id", Value.vStr "1"), ("a", Value.vNum 2)])
      = validateRow ⟨"t", [⟨"id", PKType.str⟩]⟩ (some [("id", Value.vBool true)]) :=
  (validateRow_characterization ⟨"t", [⟨"id", PKType.str⟩]⟩).2.2
    [("id", Value.vStr "1"), ("a", Value.vNum 2)] [("id", Value.vBool true)] (by decide)

lemma filterMap_none_eq_nil (l : List α) :
    (l.filterMap fun _ => (none : Option β)) = [] := by
  induction l with
  | nil => rfl
  | cons a t ih => simp [List.filterMap_cons, ih]

lemma filterMap_someF (f : α → β) (l : List α) :
    (l.filterMap fun a => some (f a)) = l.map f := by
  induction l with
  | nil => rfl
  | cons a t ih => simp [List.filterMap_cons, ih]

/-- C10: an operation-map entry whose upper-cased label is unrecognized
contributes no batch items, as do entries with a missing or empty row
array; a recognized non-empty entry contributes exactly one item per row,
in order, and the full batch list is the concatenation of the per-entry
contributions in map-iteration order. -/
theorem batchExpansion_characterization (cfg : TableCfg)
    (obj : List (String × Option (List Row))) :
    (∀ (k : String) (v : Option (List Row)),
        jsToUpper k ∉ (["PUT", "INSERT", "UPDATE", "DELETE"] : List String) →
        entryItems cfg (k, v) = [])
    ∧ (∀ k : String, entryItems cfg (k, none) = [] ∧ entryItems cfg (k, some []) = [])
    ∧ (∀ (k : String) (rows : List Row), jsToUpper k = "PUT" →
        entryItems cfg (k, some rows) = rows.map (putBatchItem cfg))
    ∧ (∀ (k : String) (rows : List Row), jsToUpper k = "INSERT" →
        entryItems cfg (k, some rows) = rows.map (insertBatchItem cfg))
    ∧ (∀ (k : String) (rows : List Row), jsToUpper k = "UPDATE" →
        entryItems cfg (k, some rows) = rows.map (updateBatchItem cfg))
    ∧ (∀ (k : String) (rows : List Row), jsToUpper k = "DELETE" →
        entryItems cfg (k, some rows) = rows.map (deleteBatchItem cfg))
    ∧ parseObjectToBatchWriteRows cfg obj = obj.flatMap (entryItems cfg) := by
  refine ⟨?_, ?_, ?_, ?_, ?_, ?_, rfl⟩
  · intro k v hk
    simp only [List.mem_cons, List.not_mem_nil, or_false, not_or] at hk
    obtain ⟨h1, h2, h3, h4⟩ := hk
    have hnone : buildBatchItem cfg (jsToUpper k) = fun _ => none := by
      funext row
      simp [buildBatchItem, h1, h2, h3, h4]
    simp only [entryItems, hnone]
    exact filterMap_none_eq_nil _
  · intro k
    exact ⟨rfl, rfl⟩
  · intro k rows hk
    simp only [entryItems, Option.getD_some, hk]
    rw [show buildBatchItem cfg "PUT" = fun row => some (putBatchItem cfg row) from rfl]
    exact filterMap_someF _ rows
  · intro k rows hk
    simp only [entryItems, Option.getD_some, hk]
    rw [show buildBatchItem cfg "INSERT" = fun row => some (insertBatchItem cfg row) from rfl]
    exact filterMap_someF _ rows
  · intro k rows hk
    simp only [entryItems, Option.getD_some, hk]
    rw [show buildBatchItem cfg "UPDATE" = fun row => some (updateBatchItem cfg row) from rfl]
    exact filterMap_someF _ rows
  · intro k rows hk
    simp only [entryItems, Option.getD_some, hk]
    rw [show buildBatchItem cfg "DELETE" = fun row => some (deleteBatchItem cfg row) from rfl]
    exact filterMap_someF _ rows

/-- Witness for C10: an entry labelled with the unrecognized operation
"increment" contributes no batch items. -/
theorem batchExpansion_characterization_witness :
    entryItems ⟨"t", [⟨"id", PKType.str⟩]⟩ ("increment", some [[("id", Value.vNum 1)]]) = [] :=
  (batchExpansion_characterization ⟨"t", [⟨"id", PKType.str⟩]⟩ []).1
    "increment" (some [[("id", Value.vNum 1)]]) (by decide)

lemma parseBatchWriteRows_foldl (ws : List RowParams) (obj0 : BatchObject) :
    ws.foldl (fun obj item =>
      let row := parseParamsToRow item
      if item.type = some "PUT" then { obj with put := obj.put ++ [row] }
      else if item.type = some "INSERT" then { obj with insert := obj.insert ++ [row] }
      else if item.type = some "UPDATE" then { obj with update := obj.update ++ [row] }
      else if item.type = some "DELETE" then { obj with delete := obj.delete ++ [row] }
      else obj) obj0
    = { put := obj0.put
          ++ (ws.filter (fun w => decide (w.type = some "PUT"))).map parseParamsToRow
        insert := obj0.insert
          ++ (ws.filter (fun w => decide (w.type = some "INSERT"))).map parseParamsToRow
        update := obj0.update
          ++ (ws.filter (fun w => decide (w.type = some "UPDATE"))).map parseParamsToRow
        delete := obj0.delete
          ++ (ws.filter (fun w => decide (w.type = some "DELETE"))).map parseParamsToRow } := by
  induction ws generalizing obj0 with
  | nil => simp
  | cons w rest ih =>
      rw [List.foldl_cons, ih]
      by_cases h1 : w.type = some "PUT"
      · simp [List.filter_cons, h1]
      · by_cases h2 : w.type = some "INSERT"
        · simp [List.filter_cons, h1, h2]
        · by_cases h3 : w.type = some "UPDATE"
          · simp [List.filter_cons, h1, h2, h3]
          · by_cases h4 : w.type = some "DELETE"
            · simp [List.filter_cons, h1, h2, h3, h4]
            · simp [List.filter_cons, h1, h2, h3, h4]

lemma parseBatchWriteRows_buckets (ws : List RowParams) :
    parseBatchWriteRowsToObject ws
    = { put := (ws.filter (fun w => decide (w.type = some "PUT"))).map parseParamsToRow
        insert := (ws.filter (fun w => decide (w.type = some "INSERT"))).map parseParamsToRow
        update := (ws.filter (fun w => decide (w.type = some "UPDATE"))).map parseParamsToRow
        delete := (ws.filter (fun w => decide (w.type = some "DELETE"))).map parseParamsToRow } := by
  rw [parseBatchWriteRowsToObject, parseBatchWriteRows_foldl]
  simp

lemma filterByOk_sub (items : List RowParams) (res : List Bool) :
    ∀ w ∈ filterByOk items res, w ∈ items := by
  induction items generalizing res with
  | nil =>
      intro w hw
      cases res <;> simp [filterByOk] at hw
  | cons item rest ih =>
      intro w hw
      cases res with
      | nil => simp [filterByOk] at hw
      | cons b bs =>
          cases b with
          | false =>
              simp only [filterByOk, Bool.false_eq_true, if_false] at hw
              exact List.mem_cons_of_mem item (ih bs w hw)
          | true =>
              simp only [filterByOk, if_true] at hw
              rcases List.mem_cons.mp hw with rfl | hw2
              · exact List.mem_cons_self _ _
              · exact List.mem_cons_of_mem item (ih bs w hw2)

lemma filterByOk_length (items : List RowParams) (res : List Bool)
    (hlen : res.length = items.length) :
    (filterByOk items res).length = res.count true := by
  induction items generalizing res with
  | nil =>
      cases res with
      | nil => rfl
      | cons b bs => simp at hlen
  | cons item rest ih =>
      cases res with
      | nil => simp at hlen
      | cons b bs =>
          simp only [List.length_cons, Nat.add_right_cancel_iff] at hlen
          cases b <;> simp [filterByOk, ih bs hlen, List.count_cons]

lemma batchItem_tag (cfg : TableCfg) (obj : List (String × Option (List Row)))
    (w : RowParams) (hw : w ∈ parseObjectToBatchWriteRows cfg obj) :
    w.type = some "PUT" ∨ w.type = some "UPDATE" ∨ w.type = some "DELETE" := by
  obtain ⟨e, _, hwe⟩ := List.mem_flatMap.mp hw
  simp only [entryItems] at hwe
  obtain ⟨row, _, hb⟩ := List.mem_filterMap.mp hwe
  by_cases h1 : jsToUpper e.1 = "PUT"
  · rw [h1] at hb
    exact Or.inl (by
      rw [← Option.some.inj (show some (putBatchItem cfg row) = some w from hb)]; rfl)
  · by_cases h2 : jsToUpper e.1 = "INSERT"
    · rw [h2] at hb
      exact Or.inl (by
        rw [← Option.some.inj (show some (insertBatchItem cfg row) = some w from hb)]; rfl)
    · by_cases h3 : jsToUpper e.1 = "UPDATE"
      · rw [h3] at hb
        exact Or.inr (Or.inl (by
          rw [← Option.some.inj (show some (updateBatchItem cfg row) = some w from hb)]; rfl))
      · by_cases h4 : jsToUpper e.1 = "DELETE"
        · rw [h4] at hb
          exact Or.inr (Or.inr (by
            rw [← Option.some.inj (show some (deleteBatchItem cfg row) = some w from hb)]; rfl))
        · rw [show buildBatchItem cfg (jsToUpper e.1) row = none by
            simp [buildBatchItem, h1, h2, h3, h4]] at hb
          cases hb

lemma filter_four_partition (ws : List RowParams)
    (h : ∀ w ∈ ws, w.type = some "PUT" ∨ w.type = some "UPDATE" ∨ w.type = some "DELETE") :
    (ws.filter (fun w => decide (w.type = some "PUT"))).length
      + (ws.filter (fun w => decide (w.type = some "INSERT"))).length
      + (ws.filter (fun w => decide (w.type = some "UPDATE"))).length
      + (ws.filter (fun w => decide (w.type = some "DELETE"))).length = ws.length := by
  induction ws with
  | nil => rfl
  | cons w rest ih =>
      have hw := h w (List.mem_cons_self w rest)
      have hrest := ih (fun x hx => h x (List.mem_cons_of_mem w hx))
      rcases hw with h1 | h1 | h1 <;>
        · simp [List.filter_cons, h1]
          omega

lemma entryItems_tag (cfg : TableCfg) (e : String × Option (List Row)) (w : RowParams)
    (hw : w ∈ entryItems cfg e) :
    ((jsToUpper e.1 = "PUT" ∨ jsToUpper e.1 = "INSERT") → w.type = some "PUT")
    ∧ (jsToUpper e.1 = "UPDATE" → w.type = some "UPDATE")
    ∧ (jsToUpper e.1 = "DELETE" → w.type = some "DELETE") := by
  simp only [entryItems] at hw
  obtain ⟨row, _, hb⟩ := List.mem_filterMap.mp hw
  refine ⟨fun hop => ?_, fun hop => ?_, fun hop => ?_⟩
  · rcases hop with hop | hop
    · rw [hop] at hb
      rw [← Option.some.inj (show some (putBatchItem cfg row) = some w from hb)]
      rfl
    · rw [hop] at hb
      rw [← Option.some.inj (show some (insertBatchItem cfg row) = some w from hb)]
      rfl
  · rw [hop] at hb
    rw [← Option.some.inj (show some (updateBatchItem cfg row) = some w from hb)]
    rfl
  · rw [hop] at hb
    rw [← Option.some.inj (show some (deleteBatchItem cfg row) = some w from hb)]
    rfl

/-- C3 (amended): reconciling a batch keeps exactly the positionally
successful items — the four buckets together hold as many rows as there
are successes — and buckets each reconstruction by the item type tag,
preserving relative order; items expanded from put and insert entries are
both tagged PUT, so insert rows land in the put bucket and the insert
bucket is always empty; update and delete rows land in their own
buckets. -/
theorem batchWrite_reconcile_amended (cfg : TableCfg)
    (batchOpData : List (String × Option (List Row))) (results : List Bool)
    (hlen : results.length = (parseObjectToBatchWriteRows cfg batchOpData).length) :
    ((batchWrite cfg batchOpData results).put.length
      + (batchWrite cfg batchOpData results).insert.length
      + (batchWrite cfg batchOpData results).update.length
      + (batchWrite cfg batchOpData results).delete.length = results.count true)
    ∧ (batchWrite cfg batchOpData results).insert = []
    ∧ (batchWrite cfg batchOpData results).put
        = ((filterByOk (parseObjectToBatchWriteRows cfg batchOpData) results).filter
            (fun w => decide (w.type = some "PUT"))).map parseParamsToRow
    ∧ (batchWrite cfg batchOpData results).update
        = ((filterByOk (parseObjectToBatchWriteRows cfg batchOpData) results).filter
            (fun w => decide (w.type = some "UPDATE"))).map parseParamsToRow
    ∧ (batchWrite cfg batchOpData results).delete
        = ((filterByOk (parseObjectToBatchWriteRows cfg batchOpData) results).filter
            (fun w => decide (w.type = some "DELETE"))).map parseParamsToRow
    ∧ (∀ e ∈ batchOpData, ∀ w ∈ entryItems cfg e,
        ((jsToUpper e.1 = "PUT" ∨ jsToUpper e.1 = "INSERT") → w.type = some "PUT")
        ∧ (jsToUpper e.1 = "UPDATE" → w.type = some "UPDATE")
        ∧ (jsToUpper e.1 = "DELETE" → w.type = some "DELETE")) := by
  have htags : ∀ w ∈ filterByOk (parseObjectToBatchWriteRows cfg batchOpData) results,
      w.type = some "PUT" ∨ w.type = some "UPDATE" ∨ w.type = some "DELETE" :=
    fun w hw => batchItem_tag cfg batchOpData w
      (filterByOk_sub (parseObjectToBatchWriteRows cfg batchOpData) results w hw)
  have hbw : batchWrite cfg batchOpData results
      = parseBatchWriteRowsToObject
          (filterByOk (parseObjectToBatchWriteRows cfg batchOpData) results) := rfl
  have hbuckets := parseBatchWriteRows_buckets
    (filterByOk (parseObjectToBatchWriteRows cfg batchOpData) results)
  have hinsert : ((filterByOk (parseObjectToBatchWriteRows cfg batchOpData) results).filter
      (fun w => decide (w.type = some "INSERT"))) = [] := by
    rw [List.filter_eq_nil_iff]
    intro w hw
    rcases htags w hw with h | h | h <;> simp [h]
  refine ⟨?_, ?_, ?_, ?_, ?_, fun e _ w hw => entryItems_tag cfg e w hw⟩
  · rw [hbw, hbuckets]
    simp only [List.length_map]
    rw [← filterByOk_length (parseObjectToBatchWriteRows cfg batchOpData) results hlen]
    exact filter_four_partition _ htags
  · rw [hbw, hbuckets]
    simp [hinsert]
  · rw [hbw, hbuckets]
  · rw [hbw, hbuckets]
  · rw [hbw, hbuckets]

/-- Witness for C3 at a two-item batch with one success: the single
successful put row is kept, the failed update row is dropped, and the
bucket totals equal the success count. -/
theorem batchWrite_reconcile_amended_witness :
    (batchWrite ⟨"t", [⟨"id", PKType.str⟩]⟩
        [("put", some [[("id", Value.vStr "p")]]),
         ("update", some [[("id", Value.vStr "u"), ("x", Value.vNum 1)]])]
        [true, false]).put.length
    + (batchWrite ⟨"t", [⟨"id", PKType.str⟩]⟩
        [("put", some [[("id", Value.vStr "p")]]),
         ("update", some [[("id", Value.vStr "u"), ("x", Value.vNum 1)]])]
        [true, false]).insert.length
    + (batchWrite ⟨"t", [⟨"id", PKType.str⟩]⟩
        [("put", some [[("id", Value.vStr "p")]]),
         ("update", some [[("id", Value.vStr "u"), ("x", Value.vNum 1)]])]
        [true, false]).update.length
    + (batchWrite ⟨"t", [⟨"id", PKType.str⟩]⟩
        [("put", some [[("id", Value.vStr "p")]]),
         ("update", some [[("id", Value.vStr "u"), ("x", Value.vNum 1)]])]
        [true, false]).delete.length
    = ([true, false] : List Bool).count true :=
  (batchWrite_reconcile_amended ⟨"t", [⟨"id", PKType.str⟩]⟩
      [("put", some [[("id", Value.vStr "p")]]),
       ("update", some [[("id", Value.vStr "u"), ("x", Value.vNum 1)]])]
      [true, false] (by decide)).1

/-- Counterexample to C3 as stated: a successful batch consisting of one
insert row leaves the insert bucket empty — the row is reconciled into
the put bucket instead. -/
theorem batchWrite_insert_bucket_counterexample :
    (batchWrite ⟨"t", [⟨"id", PKType.str⟩]⟩
        [("insert", some [[("id", Value.vStr "a")]])] [true]).insert = []
    ∧ (batchWrite ⟨"t", [⟨"id", PKType.str⟩]⟩
        [("insert", some [[("id", Value.vStr "a")]])] [true]).put
      = [[("id", AVal.scalar (Value.vStr "a"))]] := by
  constructor <;> decide

lemma getRange_aux (cfg : TableCfg) (endRow : Row) (last : ScanResponse)
    (junk : List ScanResponse) (hlast : last.next = none) :
    ∀ (init : List ScanResponse) (startRow : Row) (acc : List RespRow),
      (∀ p ∈ init, p.next.isSome = true) →
      getRange cfg startRow endRow acc (init ++ last :: junk)
        = some ((acc ++ init.flatMap ScanResponse.rows ++ last.rows).map parseDataToRow) := by
  intro init
  induction init with
  | nil =>
      intro startRow acc _
      simp [getRange, hlast]
  | cons p rest ih =>
      intro startRow acc hcont
      have hp := hcont p (List.mem_cons_self p rest)
      obtain ⟨npk, hnpk⟩ := Option.isSome_iff_exists.mp hp
      simp only [List.cons_append, getRange, hnpk, List.append_eq]
      rw [ih _ _ (fun q hq => hcont q (List.mem_cons_of_mem p hq))]
      simp [List.flatMap_cons, List.append_assoc]

/-- C2: over any backend run whose every page but the last carries a
continuation key (k pages in all), getRange returns exactly the
concatenation of all pages returned rows, each mapped through the
response-to-row conversion, recursing on each continuation key and
stopping at the first response without one (later script entries are
never consumed). -/
theorem getRange_concatenation (cfg : TableCfg) (startRow endRow : Row)
    (init : List ScanResponse) (last : ScanResponse) (junk : List ScanResponse)
    (hcont : ∀ p ∈ init, p.next.isSome = true) (hlast : last.next = none) :
    getRange cfg startRow endRow [] (init ++ last :: junk)
      = some ((init.flatMap ScanResponse.rows ++ last.rows).map parseDataToRow) := by
  rw [getRange_aux cfg endRow last junk hlast init startRow [] hcont]
  simp

/-- Witness for C2: a three-page run (two continuation keys) returns the
three pages rows concatenated in order, converted to rows. -/
theorem getRange_concatenation_witness :
    getRange ⟨"t", [⟨"id", PKType.long⟩]⟩ [] [] []
        [⟨[⟨[("id", Value.vNum 1)], []⟩], some [("id", Value.vNum 2)]⟩,
         ⟨[⟨[("id", Value.vNum 2)], []⟩], some [("id", Value.vNum 3)]⟩,
         ⟨[⟨[("id", Value.vNum 3)], [("a", Value.vStr "x")]⟩], none⟩]
      = some [[("id", Value.vNum 1)], [("id", Value.vNum 2)],
          [("id", Value.vNum 3), ("a", Value.vStr "x")]] :=
  getRange_concatenation ⟨"t", [⟨"id", PKType.long⟩]⟩ [] []
    [⟨[⟨[("id", Value.vNum 1)], []⟩], some [("id", Value.vNum 2)]⟩,
     ⟨[⟨[("id", Value.vNum 2)], []⟩], some [("id", Value.vNum 3)]⟩]
    ⟨[⟨[("id", Value.vNum 3)], [("a", Value.vStr "x")]⟩], none⟩ []
    (by decide) rfl

/-- C1: a requested page of at most 1 issues exactly one scan whose limit
is the page size and returns its converted rows; a later page first
issues a skip scan with limit (page-1) times the page size, returns empty
when that scan yields no continuation key, and otherwise issues exactly
one more scan starting at the continuation key with the page-size limit,
returning its converted rows. -/
theorem select_pagination (cfg : TableCfg) (options : SelectOptions)
    (data : ScanResponse) (rest : List ScanResponse) :
    (options.page ≤ 1 →
      (selectScanParams cfg options).limit = options.limit
      ∧ select cfg options (data :: rest)
          = some ([selectScanParams cfg options], data.rows.map parseDataToRow))
    ∧ (1 < options.page →
      (selectScanParams cfg options).limit = (options.page - 1) * options.limit
      ∧ (data.next = none →
          select cfg options (data :: rest) = some ([selectScanParams cfg options], []))
      ∧ (∀ (npk : List (String × Value)) (data2 : ScanResponse) (rest2 : List ScanResponse),
          data.next = some npk → rest = data2 :: rest2 →
          (selectSecondParams cfg options npk).limit = options.limit
          ∧ (selectSecondParams cfg options npk).inclusiveStartPrimaryKey = npk
          ∧ select cfg options (data :: rest)
              = some ([selectScanParams cfg options, selectSecondParams cfg options npk],
                  data2.rows.map parseDataToRow))) := by
  constructor
  · intro hpage
    have hp : (if options.page ≤ 0 then (1 : Int) else options.page) = 1 := by
      split <;> omega
    constructor
    · simp [selectScanParams, hp]
    · simp [select, hp]
  · intro hpage
    have hp : (if options.page ≤ 0 then (1 : Int) else options.page) = options.page := by
      split <;> omega
    have hne : (options.page == (1 : Int)) = false := by
      rw [beq_eq_false_iff_ne]
      omega
    refine ⟨?_, ?_, ?_⟩
    · simp [selectScanParams, hp, hne]
    · intro hnone
      simp [select, hp, hne, hnone]
    · intro npk data2 rest2 hnpk hrest
      subst hrest
      refine ⟨rfl, rfl, ?_⟩
      simp [select, hp, hne, hnpk]

/-- Witness for C1 at page 3 with page size 10: the skip scan consumes
the first scripted response, its continuation key starts the second scan,
and the second scripted response supplies the returned rows. -/
theorem select_pagination_witness :
    select ⟨"t", [⟨"id", PKType.str⟩]⟩ ⟨[], 10, 3, none, none⟩
        [⟨[], some [("id", Value.vStr "k")]⟩,
         ⟨[⟨[("id", Value.vStr "k")], [("a", Value.vNum 9)]⟩], none⟩]
      = some ([selectScanParams ⟨"t", [⟨"id", PKType.str⟩]⟩ ⟨[], 10, 3, none, none⟩,
          selectSecondParams ⟨"t", [⟨"id", PKType.str⟩]⟩ ⟨[], 10, 3, none, none⟩
            [("id", Value.vStr "k")]],
          [⟨[("id", Value.vStr "k")], [("a", Value.vNum 9)]⟩].map parseDataToRow) :=
  (((select_pagination ⟨"t", [⟨"id", PKType.str⟩]⟩ ⟨[], 10, 3, none, none⟩
      ⟨[], some [("id", Value.vStr "k")]⟩
      [⟨[⟨[("id", Value.vStr "k")], [("a", Value.vNum 9)]⟩], none⟩]).2 (by decide)).2.2
    [("id", Value.vStr "k")] ⟨[⟨[("id", Value.vStr "k")], [("a", Value.vNum 9)]⟩], none⟩ []
    rfl rfl).2.2

end TS
